import Mathlib

/-!
Verification of the plate-detection / violation-checking service.

Text is modelled as `List Char`; Python string operations (`strip`, `upper`,
`split`, `replace`, `' '.join`) are embedded as functions over `List Char`
with Python semantics. Floating point quantities (fines, confidences,
coordinates) are modelled as rationals. Timestamps are modelled as naturals
(only their order matters). The relational store is modelled as lists of
records; SQLAlchemy exact-match queries become list filters on the key.
-/

namespace PlateSystem

/-! ## Python string primitives -/

/-- The characters Python `str.strip()` / `str.split()` treat as whitespace
(restricted to the ASCII range). -/
def pyIsSpace (c : Char) : Bool :=
  c == ' ' || c == '\t' || c == '\n' || c == '\r' || c == '\x0b' || c == '\x0c'

/-- Python `str.strip()`: drop whitespace from both ends. -/
def pyStrip (s : List Char) : List Char :=
  ((s.dropWhile pyIsSpace).reverse.dropWhile pyIsSpace).reverse

/-- Python `str.upper()` (ASCII range, matching `Char.toUpper`). -/
def pyUpper (s : List Char) : List Char := s.map Char.toUpper

/-- Python `str.split()` with no separator: split on runs of whitespace,
dropping empty fields. (Structurally recursive; `pySplit_cons_space` and
`pySplit_cons_nonspace` give the run-based characterization.) -/
def pySplit : List Char → List (List Char)
  | [] => []
  | c :: cs =>
    if pyIsSpace c then pySplit cs
    else
      match cs with
      | [] => [[c]]
      | c2 :: _ =>
        if pyIsSpace c2 then [c] :: pySplit cs
        else
          match pySplit cs with
          | [] => [[c]]
          | t :: ts => (c :: t) :: ts

/-- Python `' '.join(tokens)`. -/
def joinSpaces : List (List Char) → List Char
  | [] => []
  | [t] => t
  | t :: ts => t ++ ' ' :: joinSpaces ts

/-! ## app/ocr.py -/

/-- `PlateOCR._clean_plate_text`: strip, collapse whitespace runs to single
spaces, uppercase. -/
def clean_plate_text (s : List Char) : List Char :=
  let t := pyStrip s
  let t := joinSpaces (pySplit t)
  pyUpper t

/-- `PlateOCR.validate_plate`: remove hyphens and spaces, require length
4..10 and at least one letter and one digit. -/
def validate_plate (plate_text : List Char) : Bool :=
  let cleaned := (plate_text.filter (fun c => !(c == '-'))).filter (fun c => !(c == ' '))
  if cleaned.length < 4 || cleaned.length > 10 then false
  else
    let has_letter := cleaned.any Char.isAlpha
    let has_number := cleaned.any Char.isDigit
    if !(has_letter && has_number) then false
    else true

/-- One (text, confidence) pair returned by the recognition engine. -/
structure Span where
  text : List Char
  conf : ℚ
deriving DecidableEq, Repr

/-- `PlateOCR.read_plate_from_crop`: the recognition engine call is a
parameter (`spans`), `imgEmpty` models `plate_img.size == 0`. Returns the
cleaned concatenated text and the confidence. -/
def read_plate_from_crop (imgEmpty : Bool) (spans : List Span) : List Char × ℚ :=
  if imgEmpty then ([], 0)
  else if spans.isEmpty then ([], 0)
  else
    let acc := spans.foldl
      (fun (a : List Char × ℚ) s =>
        let t := pyStrip s.text
        (if t.isEmpty then a.1 else a.1 ++ t ++ [' '], a.2 + s.conf))
      ([], 0)
    let confidence := acc.2 / (spans.length : ℚ)
    (clean_plate_text (pyStrip acc.1), confidence)

/-- The spec reading of the confidence, for comparison with the code: the
arithmetic mean over the contributing spans only (those whose trimmed text
is non-empty), 0 if no spans were returned. -/
def spec_mean_contributing (spans : List Span) : ℚ :=
  if spans.isEmpty then 0
  else
    let contrib := spans.filter (fun s => !(pyStrip s.text).isEmpty)
    (contrib.map Span.conf).sum / (contrib.length : ℚ)

/-! ## app/models.py -/

/-- A row of the `violations` table (fields the logic touches; audit
timestamps elided). `violation_date` is a non-null timestamp. -/
structure Violation where
  id : Nat
  plate_number : List Char
  violation_type : List Char
  violation_date : Nat
  location : Option (List Char) := none
  speed : Option ℚ := none
  speed_limit : Option ℚ := none
  fine_amount : Option ℚ := none
  is_paid : Bool := false
  description : Option (List Char) := none
deriving DecidableEq, Repr

/-- A row of the `vehicles` table. -/
structure Vehicle where
  id : Nat
  plate_number : List Char
  vehicle_type : Option (List Char) := none
  color : Option (List Char) := none
  owner_name : Option (List Char) := none
  owner_phone : Option (List Char) := none
  owner_email : Option (List Char) := none
  is_active : Bool := true
deriving DecidableEq, Repr

/-! ## app/violations.py -/

/-- The normalization `plate_number.strip().upper()` applied before every
store access. -/
def normalize_plate (s : List Char) : List Char := pyUpper (pyStrip s)

/-- Python truthiness of an optional float (`if v.fine_amount:`): false for
`None` and for `0.0`. -/
def fineTruthy : Option ℚ → Bool
  | none => false
  | some x => !(x == 0)

/-- The `ViolationCheckResult` pydantic schema. -/
structure ViolationCheckResult where
  plate_number : List Char
  has_violations : Bool
  violation_count : Nat
  violations : List Violation
  total_fine : ℚ
  last_violation_date : Option Nat
deriving DecidableEq, Repr

/-- `check_plate_violations`: normalize the plate, query all violations
with that exact plate, and aggregate count / total fine / latest date with
the source's loop. -/
def check_plate_violations (db : List Violation) (plate_number : List Char) :
    ViolationCheckResult :=
  let p := normalize_plate plate_number
  let matching := db.filter (fun v => v.plate_number == p)
  let total_fine := matching.foldl
    (fun acc v => if fineTruthy v.fine_amount then acc + v.fine_amount.getD 0 else acc) 0
  let last := matching.foldl
    (fun acc v =>
      match acc with
      | none => some v.violation_date
      | some d => if v.violation_date > d then some v.violation_date else some d)
    none
  { plate_number := p
    has_violations := decide (matching.length > 0)
    violation_count := matching.length
    violations := matching
    total_fine := total_fine
    last_violation_date := last }

/-- Optional vehicle fields passed through `**kwargs` at registration. -/
structure VehicleDetails where
  vehicle_type : Option (List Char) := none
  color : Option (List Char) := none
  owner_name : Option (List Char) := none
  owner_phone : Option (List Char) := none
  owner_email : Option (List Char) := none
deriving DecidableEq, Repr

/-- `register_vehicle`: returns the `(success, message)` pair and the store
after the call. A vehicle whose normalized plate is already present blocks
the insert. -/
def register_vehicle (db : List Vehicle) (plate_number : List Char)
    (details : VehicleDetails) : (Bool × List Char) × List Vehicle :=
  let p := normalize_plate plate_number
  match db.find? (fun v => v.plate_number == p) with
  | some _ => ((false, "Vehicle already registered".toList), db)
  | none =>
    let vid := db.length + 1
    let v : Vehicle :=
      { id := vid
        plate_number := p
        vehicle_type := details.vehicle_type
        color := details.color
        owner_name := details.owner_name
        owner_phone := details.owner_phone
        owner_email := details.owner_email }
    ((true, "Vehicle registered (ID: ".toList ++ (toString vid).toList ++ ")".toList),
     db ++ [v])

/-- Optional violation fields passed through `**kwargs`. -/
structure ViolationDetails where
  location : Option (List Char) := none
  speed : Option ℚ := none
  speed_limit : Option ℚ := none
  fine_amount : Option ℚ := none
  description : Option (List Char) := none
deriving DecidableEq, Repr

/-- `add_violation`: insert a violation row with the normalized plate and
the given date; returns `(success, message)` and the store after the call. -/
def add_violation (db : List Violation) (plate_number violation_type : List Char)
    (violation_date : Nat) (details : ViolationDetails) :
    (Bool × List Char) × List Violation :=
  let vid := db.length + 1
  let v : Violation :=
    { id := vid
      plate_number := normalize_plate plate_number
      violation_type := violation_type
      violation_date := violation_date
      location := details.location
      speed := details.speed
      speed_limit := details.speed_limit
      fine_amount := details.fine_amount
      description := details.description }
  ((true, "Violation recorded (ID: ".toList ++ (toString vid).toList ++ ")".toList),
   db ++ [v])

/-- `get_vehicle_info`: exact-match lookup by the normalized plate. -/
def get_vehicle_info (db : List Vehicle) (plate_number : List Char) : Option Vehicle :=
  db.find? (fun v => v.plate_number == normalize_plate plate_number)

/-! ## app/main_plates.py — file-serving endpoints -/

/-- Python `".." in filename`. -/
def has_dotdot : List Char → Bool
  | '.' :: '.' :: _ => true
  | _ :: rest => has_dotdot rest
  | [] => false

/-- Python `filename.startswith("/")`. -/
def starts_with_slash : List Char → Bool
  | '/' :: _ => true
  | _ => false

/-- Outcome of a file-serving endpoint. -/
inductive HttpResponse where
  | file (name : List Char)
  | httpError (status : Nat) (detail : List Char)
deriving DecidableEq, Repr

/-- `GET /results/filename`. The filesystem is abstracted as the existence
predicate `fe`; the second component records which filenames had their
existence looked up on disk. There is no filename check in this handler. -/
def get_result_image (fe : List Char → Bool) (filename : List Char) :
    HttpResponse × List (List Char) :=
  if fe filename then (HttpResponse.file filename, [filename])
  else (HttpResponse.httpError 404 "Image not found".toList, [filename])

/-- `GET /cropped-plate/filename`: rejects path traversal before touching
the filesystem, then checks existence. -/
def get_cropped_plate (fe : List Char → Bool) (filename : List Char) :
    HttpResponse × List (List Char) :=
  if has_dotdot filename || starts_with_slash filename then
    (HttpResponse.httpError 400 "Invalid filename".toList, [])
  else if fe filename then (HttpResponse.file filename, [filename])
  else (HttpResponse.httpError 404 "Cropped plate image not found".toList, [filename])

/-! ## app/main_plates.py — detection pipeline -/

/-- Observable side effects of processing one detection. -/
inductive PipelineEvent where
  | cropSaved
  | ocrRun
  | violationLookup (plate : List Char)
  | ownerLookup (plate : List Char)
deriving DecidableEq, Repr

/-- A detection box (pixel coordinates as rationals). -/
structure BBox where
  x1 : ℚ
  y1 : ℚ
  x2 : ℚ
  y2 : ℚ
deriving DecidableEq, Repr

/-- One detection as the `/detect-plates` loop sees it: the box, whether
the extracted crop came out empty (`plate_region.size == 0`), and the raw
spans the recognition engine returns on that crop. -/
structure DetectionInput where
  box : BBox
  regionEmpty : Bool
  spans : List Span
deriving DecidableEq, Repr

/-- One entry of `plates_detected`. -/
structure PlateEntry where
  plate_number : List Char
  violations : ViolationCheckResult
  owner : Option Vehicle
deriving DecidableEq, Repr

/-- The body of the `/detect-plates` per-detection loop: size filter,
empty-crop guard, crop save, OCR, the empty-text/low-confidence gate, the
format-validation gate, then the violation and owner lookups. `h`/`w` are
the source image dimensions. Returns the produced entry (if any) and the
ordered side effects. -/
def process_detection (vdb : List Violation) (cdb : List Vehicle) (h w : ℚ)
    (d : DetectionInput) : Option PlateEntry × List PipelineEvent :=
  let box_width := d.box.x2 - d.box.x1
  let box_height := d.box.y2 - d.box.y1
  let min_size := min h w * (5 / 100)
  if box_width < min_size || box_height < min_size then (none, [])
  else if d.regionEmpty then (none, [])
  else
    let evs := [PipelineEvent.cropSaved, PipelineEvent.ocrRun]
    let r := read_plate_from_crop false d.spans
    let plate_text := r.1
    let ocr_conf := r.2
    if plate_text.isEmpty || ocr_conf < 35 / 100 then (none, evs)
    else if !validate_plate plate_text then (none, evs)
    else
      let summary := check_plate_violations vdb plate_text
      let owner := get_vehicle_info cdb plate_text
      (some { plate_number := plate_text, violations := summary, owner := owner },
       evs ++ [PipelineEvent.violationLookup plate_text, PipelineEvent.ownerLookup plate_text])

/-- The `plates_detected` list the `/detect-plates` loop accumulates. -/
def detect_plates (vdb : List Violation) (cdb : List Vehicle) (h w : ℚ)
    (ds : List DetectionInput) : List PlateEntry :=
  ds.foldl (fun acc d => acc ++ ((process_detection vdb cdb h w d).1).toList) []

/-! ## app/main_plates.py — violation endpoints -/

/-- The JSON body of `GET /violations/check/plate`. -/
structure CheckViolationsResponse where
  plate_number : List Char
  has_violations : Bool
  violation_count : Nat
  total_fine : ℚ
  last_violation : Option Nat
  violations : List Violation
deriving DecidableEq, Repr

/-- `GET /violations/check/plate_number` handler. -/
def check_violations (db : List Violation) (plate_number : List Char) :
    CheckViolationsResponse :=
  let violations := check_plate_violations db plate_number
  { plate_number := violations.plate_number
    has_violations := violations.has_violations
    violation_count := violations.violation_count
    total_fine := violations.total_fine
    last_violation := violations.last_violation_date
    violations := violations.violations }

/-- The query parameters `POST /violations/add` accepts. There is no
violation-date parameter in the handler signature. -/
structure AddViolationParams where
  plate_number : List Char
  violation_type : List Char
  location : Option (List Char) := none
  speed : Option ℚ := none
  speed_limit : Option ℚ := none
  fine_amount : Option ℚ := none
  description : Option (List Char) := none
deriving DecidableEq, Repr

/-- `POST /violations/add` handler: forwards the parameters to
`add_violation` with `datetime.now()` (the argument `now`) as the
violation date. Returns `(success, message, plate_number)` and the store
after the call. -/
def add_new_violation (db : List Violation) (params : AddViolationParams)
    (now : Nat) : (Bool × List Char × List Char) × List Violation :=
  let r := add_violation db params.plate_number params.violation_type now
    { location := params.location
      speed := params.speed
      speed_limit := params.speed_limit
      fine_amount := params.fine_amount
      description := params.description }
  ((r.1.1, r.1.2, params.plate_number), r.2)

/-! ## Verification -/

/-- C2: `validate_plate` strips hyphens and spaces from its input and
accepts exactly when the stripped text has length between 4 and 10
inclusive and contains at least one alphabetic character and one digit;
with the concrete examples of the spec. -/
theorem validate_plate_spec :
    (∀ s : List Char,
      validate_plate s = true ↔
        (4 ≤ (s.filter (fun c => !(c == ' ') && !(c == '-'))).length ∧
         (s.filter (fun c => !(c == ' ') && !(c == '-'))).length ≤ 10 ∧
         (∃ c ∈ s.filter (fun c => !(c == ' ') && !(c == '-')), Char.isAlpha c) ∧
         (∃ c ∈ s.filter (fun c => !(c == ' ') && !(c == '-')), Char.isDigit c))) ∧
    validate_plate ("AB1".toList) = false ∧
    validate_plate ("AB12".toList) = true ∧
    validate_plate ("12345678901".toList) = false ∧
    validate_plate ("AAAAAA".toList) = false ∧
    validate_plate ("123456".toList) = false ∧
    validate_plate ("AB-12-CD".toList) = true := by
  refine ⟨fun s => ?_, by decide, by decide, by decide, by decide, by decide, by decide⟩
  unfold validate_plate
  simp only [List.filter_filter]
  constructor
  · intro hv
    by_cases h1 : ((s.filter (fun c => !(c == ' ') && !(c == '-'))).length < 4 ∨
        (s.filter (fun c => !(c == ' ') && !(c == '-'))).length > 10)
    · exfalso
      rcases h1 with h1 | h1 <;> simp [h1] at hv
    · push_neg at h1
      by_cases h2 : ((s.filter (fun c => !(c == ' ') && !(c == '-'))).any Char.isAlpha &&
          (s.filter (fun c => !(c == ' ') && !(c == '-'))).any Char.isDigit) = true
      · rcases Bool.and_eq_true_iff.mp h2 with ⟨ha, hd⟩
        rw [List.any_eq_true] at ha hd
        obtain ⟨a, haM, haA⟩ := ha
        obtain ⟨b, hbM, hbD⟩ := hd
        exact ⟨h1.1, h1.2, ⟨a, haM, haA⟩, ⟨b, hbM, hbD⟩⟩
      · exfalso
        have hlt : ¬ ((s.filter (fun c => !(c == ' ') && !(c == '-'))).length < 4) := by omega
        have hgt : ¬ ((s.filter (fun c => !(c == ' ') && !(c == '-'))).length > 10) := by omega
        have h2' : ((s.filter (fun c => !(c == ' ') && !(c == '-'))).any Char.isAlpha &&
            (s.filter (fun c => !(c == ' ') && !(c == '-'))).any Char.isDigit) = false :=
          Bool.eq_false_iff.mpr h2
        rw [if_neg (by simp [hlt, hgt]), h2'] at hv
        simp at hv
  · rintro ⟨h4, h10, ⟨a, haM, haA⟩, ⟨b, hbM, hbD⟩⟩
    have hlt : ¬ ((s.filter (fun c => !(c == ' ') && !(c == '-'))).length < 4) := by omega
    have hgt : ¬ ((s.filter (fun c => !(c == ' ') && !(c == '-'))).length > 10) := by omega
    have ha : (s.filter (fun c => !(c == ' ') && !(c == '-'))).any Char.isAlpha = true :=
      List.any_eq_true.mpr ⟨a, haM, haA⟩
    have hd : (s.filter (fun c => !(c == ' ') && !(c == '-'))).any Char.isDigit = true :=
      List.any_eq_true.mpr ⟨b, hbM, hbD⟩
    simp [hlt, hgt, ha, hd]

/-- The fine-accumulation loop computes the sum of the fines with null
read as 0 (adding a present `0.0` fine and skipping it coincide). -/
lemma foldl_fine_eq_sum (l : List Violation) :
    ∀ init : ℚ,
      l.foldl (fun acc v => if fineTruthy v.fine_amount then acc + v.fine_amount.getD 0 else acc)
          init
        = init + (l.map (fun v => v.fine_amount.getD 0)).sum := by
  induction l with
  | nil => intro init; simp
  | cons v vs ih =>
    intro init
    rw [List.foldl_cons, ih, List.map_cons, List.sum_cons]
    have hstep : (if fineTruthy v.fine_amount then init + v.fine_amount.getD 0 else init)
        = init + v.fine_amount.getD 0 := by
      cases hf : v.fine_amount with
      | none => simp [fineTruthy]
      | some x =>
        by_cases hx : x = 0
        · subst hx; simp [fineTruthy]
        · simp [fineTruthy, hx]
    rw [hstep]; ring

/-- The latest-date loop, once seeded, folds `max` over the dates. -/
lemma foldl_last_some (l : List Violation) :
    ∀ d : Nat,
      l.foldl
          (fun acc v =>
            match acc with
            | none => some v.violation_date
            | some d0 => if v.violation_date > d0 then some v.violation_date else some d0)
          (some d)
        = some ((l.map (fun v => v.violation_date)).foldl max d) := by
  induction l with
  | nil => intro d; rfl
  | cons v vs ih =>
    intro d
    rw [List.foldl_cons, List.map_cons, List.foldl_cons]
    have hstep : (if v.violation_date > d then some v.violation_date else some d)
        = some (max d v.violation_date) := by
      split
      · next hgt => rw [Nat.max_eq_right (Nat.le_of_lt hgt)]
      · next hle => rw [Nat.max_eq_left (Nat.le_of_not_lt hle)]
    show vs.foldl _ (if v.violation_date > d then some v.violation_date else some d) = _
    rw [hstep, ih]

/-- The latest-date loop computes the maximum of the dates, `none` on an
empty match set. -/
lemma foldl_last_eq_max (l : List Violation) :
    l.foldl
        (fun acc v =>
          match acc with
          | none => some v.violation_date
          | some d0 => if v.violation_date > d0 then some v.violation_date else some d0)
        none
      = (l.map (fun v => v.violation_date)).max? := by
  cases l with
  | nil => rfl
  | cons v vs =>
    rw [List.foldl_cons]
    show vs.foldl _ (some v.violation_date) = _
    rw [foldl_last_some, List.map_cons]
    rfl

/-- C1: for every plate key, `check_plate_violations` returns the count of
records matching the normalized key, `has_violations` iff that count is
positive, the total fine as the sum with null fines read as 0, the latest
violation date (or `none` on an empty match set), and the matching records
themselves; a plate with no matching records yields the all-empty summary. -/
theorem check_plate_violations_spec :
    ∀ (db : List Violation) (plate : List Char),
      (check_plate_violations db plate).violation_count
          = (db.filter (fun v => v.plate_number == normalize_plate plate)).length ∧
      ((check_plate_violations db plate).has_violations = true ↔
          0 < (db.filter (fun v => v.plate_number == normalize_plate plate)).length) ∧
      (check_plate_violations db plate).violations
          = db.filter (fun v => v.plate_number == normalize_plate plate) ∧
      (check_plate_violations db plate).total_fine
          = ((db.filter (fun v => v.plate_number == normalize_plate plate)).map
              (fun v => v.fine_amount.getD 0)).sum ∧
      (check_plate_violations db plate).last_violation_date
          = ((db.filter (fun v => v.plate_number == normalize_plate plate)).map
              (fun v => v.violation_date)).max? ∧
      (db.filter (fun v => v.plate_number == normalize_plate plate) = [] →
        (check_plate_violations db plate).has_violations = false ∧
        (check_plate_violations db plate).violation_count = 0 ∧
        (check_plate_violations db plate).total_fine = 0 ∧
        (check_plate_violations db plate).last_violation_date = none ∧
        (check_plate_violations db plate).violations = []) := by
  intro db plate
  refine ⟨rfl, by simp [check_plate_violations], rfl, ?_, ?_, ?_⟩
  · show (db.filter (fun v => v.plate_number == normalize_plate plate)).foldl _ 0 = _
    rw [foldl_fine_eq_sum]; ring
  · exact foldl_last_eq_max _
  · intro hM
    refine ⟨?_, ?_, ?_, ?_, ?_⟩
    · simp [check_plate_violations, hM]
    · show (db.filter (fun v => v.plate_number == normalize_plate plate)).length = 0
      rw [hM]; rfl
    · show (db.filter (fun v => v.plate_number == normalize_plate plate)).foldl _ 0 = 0
      rw [hM]; rfl
    · show (db.filter (fun v => v.plate_number == normalize_plate plate)).foldl _ none = none
      rw [hM]; rfl
    · show db.filter (fun v => v.plate_number == normalize_plate plate) = []
      exact hM

/-- Witness for C1 at a concrete empty store. -/
theorem check_plate_violations_spec_witness :
    (check_plate_violations [] ("AB12".toList)).has_violations = false ∧
    (check_plate_violations [] ("AB12".toList)).violation_count = 0 ∧
    (check_plate_violations [] ("AB12".toList)).total_fine = 0 ∧
    (check_plate_violations [] ("AB12".toList)).last_violation_date = none ∧
    (check_plate_violations [] ("AB12".toList)).violations = [] :=
  (check_plate_violations_spec [] ("AB12".toList)).2.2.2.2.2 rfl

/-- Witness for C2: the characterization applied at a concrete plate. -/
theorem validate_plate_spec_witness : validate_plate ("AB12".toList) = true :=
  (validate_plate_spec.1 ("AB12".toList)).mpr (by decide)

/-- C9: the `plate_number` reported by `check_plate_violations` — and hence
by the `GET /violations/check` endpoint — is the trimmed, uppercased form
of the input, so any two inputs with the same normalized form yield the
same reported plate number. -/
theorem check_plate_violations_normalizes :
    ∀ (db : List Violation) (plate : List Char),
      (check_plate_violations db plate).plate_number = pyUpper (pyStrip plate) ∧
      (check_violations db plate).plate_number = pyUpper (pyStrip plate) ∧
      ∀ plate2 : List Char, normalize_plate plate2 = normalize_plate plate →
        (check_violations db plate2).plate_number
          = (check_violations db plate).plate_number := by
  intro db plate
  refine ⟨rfl, rfl, fun plate2 h => ?_⟩
  show normalize_plate plate2 = normalize_plate plate
  exact h

/-- Witness for C9: two inputs differing in case and surrounding
whitespace produce the same reported plate number. -/
theorem check_plate_violations_normalizes_witness :
    (check_violations [] (" ab12 ".toList)).plate_number
      = (check_violations [] ("AB12".toList)).plate_number :=
  (check_plate_violations_normalizes [] ("AB12".toList)).2.2 (" ab12 ".toList) (by decide)

/-- C10: every violation created through `POST /violations/add` carries the
handler's `datetime.now()` as its violation date: the store after the call
is the old store plus one record, and every record of the new store is
either an old record or has `violation_date = now`. -/
theorem add_new_violation_date_now :
    ∀ (db : List Violation) (params : AddViolationParams) (now : Nat),
      ((add_new_violation db params now).2).length = db.length + 1 ∧
      (add_new_violation db params now).1.1 = true ∧
      ∀ v ∈ (add_new_violation db params now).2, v ∈ db ∨ v.violation_date = now := by
  intro db params now
  refine ⟨by simp [add_new_violation, add_violation], rfl, fun v hv => ?_⟩
  simp only [add_new_violation, add_violation, List.mem_append, List.mem_singleton] at hv
  rcases hv with h | h
  · exact Or.inl h
  · subst h; exact Or.inr rfl

/-- Witness for C10 at a concrete request. -/
theorem add_new_violation_date_now_witness :
    ({ id := 1, plate_number := "AB12".toList, violation_type := "speeding".toList,
       violation_date := 5 } : Violation)
        ∈ (add_new_violation []
            { plate_number := " ab12 ".toList, violation_type := "speeding".toList } 5).2 ∧
    (({ id := 1, plate_number := "AB12".toList, violation_type := "speeding".toList,
        violation_date := 5 } : Violation) ∈ ([] : List Violation) ∨
      ({ id := 1, plate_number := "AB12".toList, violation_type := "speeding".toList,
         violation_date := 5 } : Violation).violation_date = 5) :=
  ⟨by decide,
   (add_new_violation_date_now []
      { plate_number := " ab12 ".toList, violation_type := "speeding".toList } 5).2.2
     _ (by decide)⟩

/-- C8: registering a plate whose normalized form is already present fails
with a message containing "already registered" and leaves the store
unchanged. -/
theorem register_vehicle_duplicate :
    ∀ (db : List Vehicle) (plate : List Char) (details : VehicleDetails),
      (∃ v ∈ db, v.plate_number = normalize_plate plate) →
        (register_vehicle db plate details).1.1 = false ∧
        ("already registered".toList <:+: (register_vehicle db plate details).1.2) ∧
        (register_vehicle db plate details).2 = db := by
  intro db plate details h
  obtain ⟨v, hv, hp⟩ := h
  have hfind : (db.find? (fun u => u.plate_number == normalize_plate plate)).isSome := by
    rw [List.find?_isSome]
    exact ⟨v, hv, by simp [hp]⟩
  obtain ⟨u, hu⟩ := Option.isSome_iff_exists.mp hfind
  simp only [register_vehicle, hu]
  exact ⟨trivial, ⟨"Vehicle ".toList, [], by decide⟩, trivial⟩

/-- Witness for C8: a duplicate registration at a concrete store. -/
theorem register_vehicle_duplicate_witness :
    (register_vehicle [{ id := 1, plate_number := "AB12".toList }] (" ab12 ".toList) {}).1.1
        = false ∧
    ("already registered".toList <:+:
      (register_vehicle [{ id := 1, plate_number := "AB12".toList }] (" ab12 ".toList) {}).1.2) ∧
    (register_vehicle [{ id := 1, plate_number := "AB12".toList }] (" ab12 ".toList) {}).2
        = [{ id := 1, plate_number := "AB12".toList }] :=
  register_vehicle_duplicate [{ id := 1, plate_number := "AB12".toList }] (" ab12 ".toList) {}
    ⟨{ id := 1, plate_number := "AB12".toList }, by decide, by decide⟩

/-- C4 counterexample: for the traversal filename "../secret.jpg",
`GET /results/{filename}` does not reject with an invalid-filename error;
it performs the file lookup and serves the file when it exists. -/
theorem get_result_image_traversal_counterexample :
    has_dotdot ("../secret.jpg".toList) = true ∧
    (get_result_image (fun _ => true) ("../secret.jpg".toList)).1
        ≠ HttpResponse.httpError 400 ("Invalid filename".toList) ∧
    (get_result_image (fun _ => true) ("../secret.jpg".toList)).1
        = HttpResponse.file ("../secret.jpg".toList) ∧
    (get_result_image (fun _ => true) ("../secret.jpg".toList)).2 ≠ [] := by
  decide

/-- C4 amended: only `GET /cropped-plate/{filename}` rejects filenames
containing ".." or starting with "/" — with a 400 invalid-filename error,
before any file lookup; `GET /results/{filename}` performs no such check:
it always looks the filename up on disk and serves it whenever it exists. -/
theorem traversal_rejection_amended :
    ∀ (fe : List Char → Bool) (filename : List Char),
      (has_dotdot filename = true ∨ starts_with_slash filename = true) →
        get_cropped_plate fe filename
            = (HttpResponse.httpError 400 ("Invalid filename".toList), []) ∧
        (get_result_image fe filename).2 = [filename] ∧
        (fe filename = true →
          (get_result_image fe filename).1 = HttpResponse.file filename) := by
  intro fe filename hbad
  have hcond : (has_dotdot filename || starts_with_slash filename) = true := by
    rcases hbad with h | h <;> simp [h]
  refine ⟨?_, ?_, ?_⟩
  · unfold get_cropped_plate
    rw [if_pos hcond]
  · unfold get_result_image
    split <;> rfl
  · intro hfe
    unfold get_result_image
    rw [if_pos hfe]

/-- Witness for the amended C4 at a concrete traversal filename. -/
theorem traversal_rejection_amended_witness :
    get_cropped_plate (fun _ => true) ("../secret.jpg".toList)
        = (HttpResponse.httpError 400 ("Invalid filename".toList), []) ∧
    (get_result_image (fun _ => true) ("../secret.jpg".toList)).2 = ["../secret.jpg".toList] ∧
    (get_result_image (fun _ => true) ("../secret.jpg".toList)).1
        = HttpResponse.file ("../secret.jpg".toList) := by
  have h := traversal_rejection_amended (fun _ => true) ("../secret.jpg".toList)
    (Or.inl (by decide))
  exact ⟨h.1, h.2.1, h.2.2 rfl⟩

unseal Rat.mul Rat.add Rat.inv Rat.sub in
/-- C5 counterexample: with one all-whitespace span (confidence 1) and one
contributing span "AB12" (confidence 0), the code returns confidence 1/2 —
the mean over all spans — while the mean over the contributing spans is 0. -/
theorem read_plate_from_crop_confidence_counterexample :
    (read_plate_from_crop false
        [{ text := " ".toList, conf := 1 }, { text := "AB12".toList, conf := 0 }]).2
      = 1 / 2 ∧
    spec_mean_contributing
        [{ text := " ".toList, conf := 1 }, { text := "AB12".toList, conf := 0 }] = 0 ∧
    (read_plate_from_crop false
        [{ text := " ".toList, conf := 1 }, { text := "AB12".toList, conf := 0 }]).2
      ≠ spec_mean_contributing
        [{ text := " ".toList, conf := 1 }, { text := "AB12".toList, conf := 0 }] := by
  decide

/-- The confidence accumulator adds every span confidence, whether or not
the span contributes text. -/
lemma foldl_conf_eq_sum (l : List Span) :
    ∀ a : List Char × ℚ,
      (l.foldl
          (fun (a : List Char × ℚ) s =>
            let t := pyStrip s.text
            (if t.isEmpty then a.1 else a.1 ++ t ++ [' '], a.2 + s.conf))
          a).2
        = a.2 + (l.map Span.conf).sum := by
  induction l with
  | nil => intro a; simp
  | cons s ss ih =>
    intro a
    rw [List.foldl_cons, ih]
    show (a.2 + s.conf) + _ = _
    rw [List.map_cons, List.sum_cons]; ring

/-- C5 amended: the confidence returned by `read_plate_from_crop` is the
arithmetic mean of the confidences of ALL returned spans — including spans
whose trimmed text is empty and therefore contribute no text — and 0.0
when no spans were returned (or the crop was empty). -/
theorem read_plate_from_crop_confidence :
    ∀ spans : List Span,
      (read_plate_from_crop true spans).2 = 0 ∧
      (read_plate_from_crop false ([] : List Span)).2 = 0 ∧
      (spans ≠ [] →
        (read_plate_from_crop false spans).2
          = (spans.map Span.conf).sum / (spans.length : ℚ)) := by
  intro spans
  refine ⟨rfl, rfl, fun hne => ?_⟩
  have hempty : spans.isEmpty = false := by
    cases spans with
    | nil => exact absurd rfl hne
    | cons s ss => rfl
  unfold read_plate_from_crop
  rw [if_neg (by simp), if_neg (by simp [hempty])]
  show (spans.foldl _ ([], 0)).2 / (spans.length : ℚ) = _
  rw [foldl_conf_eq_sum]
  norm_num

/-- Witness for the amended C5 at a concrete span list. -/
theorem read_plate_from_crop_confidence_witness :
    (read_plate_from_crop true [{ text := "AB12".toList, conf := 1 / 2 }]).2 = 0 ∧
    (read_plate_from_crop false ([] : List Span)).2 = 0 ∧
    (read_plate_from_crop false [{ text := "AB12".toList, conf := 1 / 2 }]).2
      = (([{ text := "AB12".toList, conf := 1 / 2 }] : List Span).map Span.conf).sum
          / (([{ text := "AB12".toList, conf := 1 / 2 }] : List Span).length : ℚ) := by
  have h := read_plate_from_crop_confidence [{ text := "AB12".toList, conf := 1 / 2 }]
  exact ⟨h.1, h.2.1, h.2.2 (by decide)⟩

/-- Accumulating a loop that appends one entry per `some` result equals
`filterMap`. -/
lemma foldl_append_option {α β : Type} (g : α → Option β) :
    ∀ (l : List α) (acc : List β),
      l.foldl (fun a x => a ++ (g x).toList) acc = acc ++ l.filterMap g := by
  intro l
  induction l with
  | nil => intro acc; simp
  | cons x xs ih =>
    intro acc
    rw [List.foldl_cons, ih, List.filterMap_cons]
    cases hg : g x with
    | some e => simp [Option.toList]
    | none => simp [Option.toList]

/-- The accumulated `plates_detected` list is the `filterMap` of the
per-detection results. -/
lemma detect_plates_eq_filterMap (vdb : List Violation) (cdb : List Vehicle) (h w : ℚ)
    (ds : List DetectionInput) :
    detect_plates vdb cdb h w ds
      = ds.filterMap (fun d => (process_detection vdb cdb h w d).1) := by
  have hfold := foldl_append_option (fun d => (process_detection vdb cdb h w d).1) ds []
  simpa [detect_plates] using hfold

/-- A detection whose per-detection result is `none` contributes no entry
to `plates_detected`. -/
lemma detect_plates_drop (vdb : List Violation) (cdb : List Vehicle) (h w : ℚ)
    (d : DetectionInput) (hnone : (process_detection vdb cdb h w d).1 = none) :
    ∀ pre post : List DetectionInput,
      detect_plates vdb cdb h w (pre ++ d :: post) = detect_plates vdb cdb h w (pre ++ post) := by
  intro pre post
  rw [detect_plates_eq_filterMap, detect_plates_eq_filterMap, List.filterMap_append,
    List.filterMap_append, List.filterMap_cons, hnone]

/-- C6: a detection whose box width or height is below 5% of the shorter
image dimension is skipped entirely: no side effect happens (no crop is
saved, no OCR runs) and no entry is contributed to `plates_detected`. -/
theorem process_detection_size_filter :
    ∀ (vdb : List Violation) (cdb : List Vehicle) (h w : ℚ) (d : DetectionInput),
      (d.box.x2 - d.box.x1 < min h w * (5 / 100) ∨
       d.box.y2 - d.box.y1 < min h w * (5 / 100)) →
        process_detection vdb cdb h w d = (none, []) ∧
        ∀ pre post : List DetectionInput,
          detect_plates vdb cdb h w (pre ++ d :: post)
            = detect_plates vdb cdb h w (pre ++ post) := by
  intro vdb cdb h w d hsmall
  have hmain : process_detection vdb cdb h w d = (none, []) := by
    unfold process_detection
    rw [if_pos]
    rcases hsmall with h1 | h1 <;> simp [h1]
  exact ⟨hmain, detect_plates_drop vdb cdb h w d (by rw [hmain])⟩

unseal Rat.mul Rat.add Rat.inv Rat.sub in
/-- Witness for C6: a 1×1 box in a 100×100 image is dropped. -/
theorem process_detection_size_filter_witness :
    process_detection [] [] 100 100
        { box := { x1 := 0, y1 := 0, x2 := 1, y2 := 1 }, regionEmpty := false, spans := [] }
      = (none, []) ∧
    detect_plates [] [] 100 100
        ([] ++ { box := { x1 := 0, y1 := 0, x2 := 1, y2 := 1 }, regionEmpty := false,
                 spans := [] } :: [])
      = detect_plates [] [] 100 100 ([] ++ []) := by
  have h := process_detection_size_filter [] [] 100 100
    { box := { x1 := 0, y1 := 0, x2 := 1, y2 := 1 }, regionEmpty := false, spans := [] }
    (Or.inl (by decide))
  exact ⟨h.1, h.2 [] []⟩

/-- Splitting at a leading whitespace character skips it. -/
lemma pySplit_cons_space {c : Char} (h : pyIsSpace c = true) (cs : List Char) :
    pySplit (c :: cs) = pySplit cs := by
  cases cs <;> simp [pySplit, h]

/-- Splitting at a non-whitespace character takes the maximal non-space
run as the first token and recurses after it. -/
lemma pySplit_cons_nonspace :
    ∀ (cs : List Char) (c : Char), pyIsSpace c = false →
      pySplit (c :: cs)
        = (c :: cs.takeWhile (fun x => !pyIsSpace x))
            :: pySplit (cs.dropWhile (fun x => !pyIsSpace x)) := by
  intro cs
  induction cs with
  | nil => intro c h; simp [pySplit, h]
  | cons c2 cs2 ih =>
    intro c h
    cases h2 : pyIsSpace c2 with
    | true =>
      rw [List.takeWhile_cons_of_neg (by simp [h2]), List.dropWhile_cons_of_neg (by simp [h2])]
      simp [pySplit, h, h2]
    | false =>
      rw [List.takeWhile_cons_of_pos (by simp [h2]), List.dropWhile_cons_of_pos (by simp [h2])]
      conv_lhs => rw [pySplit]
      rw [if_neg (by simp [h])]
      show (if pyIsSpace c2 = true then [c] :: pySplit (c2 :: cs2)
            else
              match pySplit (c2 :: cs2) with
              | [] => [[c]]
              | t :: ts => (c :: t) :: ts) = _
      rw [if_neg (by simp [h2]), ih c2 h2]

/-- Every run of the per-detection loop body is a skip with no events, a
post-OCR rejection with only the crop/OCR events, or an accepted reading
that passed the emptiness, confidence and format gates. -/
lemma process_detection_characterization (vdb : List Violation) (cdb : List Vehicle)
    (h w : ℚ) (d : DetectionInput) :
    process_detection vdb cdb h w d = (none, []) ∨
    (process_detection vdb cdb h w d
        = (none, [PipelineEvent.cropSaved, PipelineEvent.ocrRun]) ∧
      ((read_plate_from_crop false d.spans).1.isEmpty = true ∨
       (read_plate_from_crop false d.spans).2 < 35 / 100 ∨
       validate_plate (read_plate_from_crop false d.spans).1 = false)) ∨
    ((read_plate_from_crop false d.spans).1.isEmpty = false ∧
     ¬ ((read_plate_from_crop false d.spans).2 < 35 / 100) ∧
     validate_plate (read_plate_from_crop false d.spans).1 = true ∧
     process_detection vdb cdb h w d
        = (some
            { plate_number := (read_plate_from_crop false d.spans).1
              violations := check_plate_violations vdb (read_plate_from_crop false d.spans).1
              owner := get_vehicle_info cdb (read_plate_from_crop false d.spans).1 },
           [PipelineEvent.cropSaved, PipelineEvent.ocrRun,
            PipelineEvent.violationLookup (read_plate_from_crop false d.spans).1,
            PipelineEvent.ownerLookup (read_plate_from_crop false d.spans).1])) := by
  simp only [process_detection]
  split
  · exact Or.inl rfl
  · split
    · exact Or.inl rfl
    · split
      · next hgate =>
        refine Or.inr (Or.inl ⟨rfl, ?_⟩)
        rcases Bool.or_eq_true_iff.mp hgate with hg | hg
        · exact Or.inl hg
        · exact Or.inr (Or.inl (of_decide_eq_true hg))
      · split
        · next hval =>
          refine Or.inr (Or.inl ⟨rfl, Or.inr (Or.inr ?_)⟩)
          simpa using hval
        · next hgate hval =>
          have hempty : (read_plate_from_crop false d.spans).1.isEmpty = false := by
            cases he : (read_plate_from_crop false d.spans).1.isEmpty
            · rfl
            · exact absurd (by simp [he]) hgate
          have hconf : ¬ ((read_plate_from_crop false d.spans).2 < 35 / 100) :=
            fun hc => hgate (by simp [hc])
          have hvalid : validate_plate (read_plate_from_crop false d.spans).1 = true := by
            cases hv : validate_plate (read_plate_from_crop false d.spans).1
            · exact absurd (by simp [hv]) hval
            · rfl
          exact Or.inr (Or.inr ⟨hempty, hconf, hvalid, rfl⟩)

/-- C3: a detection whose OCR reading has empty text, confidence below
0.35, or text failing `validate_plate` triggers no violation lookup and no
owner lookup and contributes no entry to `plates_detected`; conversely,
whenever a violation or owner lookup is reached, the looked-up plate text
is non-empty and format-valid. -/
theorem process_detection_ocr_gate :
    ∀ (vdb : List Violation) (cdb : List Vehicle) (h w : ℚ) (d : DetectionInput),
      (((read_plate_from_crop false d.spans).1 = [] ∨
        (read_plate_from_crop false d.spans).2 < 35 / 100 ∨
        validate_plate (read_plate_from_crop false d.spans).1 = false) →
        ((process_detection vdb cdb h w d).1 = none ∧
         (∀ p : List Char,
            PipelineEvent.violationLookup p ∉ (process_detection vdb cdb h w d).2 ∧
            PipelineEvent.ownerLookup p ∉ (process_detection vdb cdb h w d).2) ∧
         ∀ pre post : List DetectionInput,
           detect_plates vdb cdb h w (pre ++ d :: post)
             = detect_plates vdb cdb h w (pre ++ post))) ∧
      (∀ p : List Char,
        (PipelineEvent.violationLookup p ∈ (process_detection vdb cdb h w d).2 ∨
         PipelineEvent.ownerLookup p ∈ (process_detection vdb cdb h w d).2) →
        p ≠ [] ∧ validate_plate p = true) := by
  intro vdb cdb h w d
  rcases process_detection_characterization vdb cdb h w d with heq | ⟨heq, _⟩ |
    ⟨hempty, hconf, hvalid, heq⟩
  · constructor
    · intro _
      refine ⟨by rw [heq], fun p => ⟨by rw [heq]; simp, by rw [heq]; simp⟩, ?_⟩
      exact detect_plates_drop vdb cdb h w d (by rw [heq])
    · intro p hp
      rw [heq] at hp
      simp at hp
  · constructor
    · intro _
      refine ⟨by rw [heq], fun p => ⟨by rw [heq]; simp, by rw [heq]; simp⟩, ?_⟩
      exact detect_plates_drop vdb cdb h w d (by rw [heq])
    · intro p hp
      rw [heq] at hp
      simp at hp
  · constructor
    · intro hrej
      exfalso
      rcases hrej with hr | hr | hr
      · rw [hr] at hempty
        simp at hempty
      · exact hconf hr
      · rw [hvalid] at hr
        simp at hr
    · intro p hp
      rw [heq] at hp
      have hpe : p = (read_plate_from_crop false d.spans).1 := by
        rcases hp with hp | hp <;> simpa using hp
      subst hpe
      refine ⟨?_, hvalid⟩
      intro hnil
      rw [hnil] at hempty
      simp at hempty

unseal Rat.mul Rat.add Rat.inv Rat.sub in
/-- Witness for C3: a detection with no recognized spans is dropped with
no lookups, and a detection reading "AB12" at confidence 1 reaches the
lookups with non-empty, format-valid text. -/
theorem process_detection_ocr_gate_witness :
    ((process_detection [] [] 100 100
        { box := { x1 := 0, y1 := 0, x2 := 50, y2 := 50 }, regionEmpty := false,
          spans := [] }).1 = none ∧
     detect_plates [] [] 100 100
        ([] ++ { box := { x1 := 0, y1 := 0, x2 := 50, y2 := 50 }, regionEmpty := false,
                 spans := ([] : List Span) } :: [])
       = detect_plates [] [] 100 100 ([] ++ [])) ∧
    ("AB12".toList ≠ [] ∧ validate_plate ("AB12".toList) = true) := by
  have h1 := (process_detection_ocr_gate [] [] 100 100
    { box := { x1 := 0, y1 := 0, x2 := 50, y2 := 50 }, regionEmpty := false,
      spans := [] }).1 (Or.inl (by decide))
  have h2 := (process_detection_ocr_gate [] [] 100 100
    { box := { x1 := 0, y1 := 0, x2 := 50, y2 := 50 }, regionEmpty := false,
      spans := [{ text := "AB12".toList, conf := 1 }] }).2 ("AB12".toList)
    (Or.inl (by decide))
  exact ⟨⟨h1.1, h1.2.2 [] []⟩, h2⟩

/-! Character-level facts about `Char.toUpper` and `pyIsSpace`, needed for
the idempotence of the text normalizer. -/

lemma toUpper_eq_ite (c : Char) :
    c.toUpper = if c.toNat ≥ 97 ∧ c.toNat ≤ 122 then Char.ofNat (c.toNat - 32) else c := rfl

lemma toNat_ofNat_small {n : Nat} (h : n < 55296) : (Char.ofNat n).toNat = n := by
  rw [Char.ofNat, dif_pos (Or.inl h)]
  rfl

lemma toNat_toUpper (c : Char) :
    c.toUpper.toNat = if c.toNat ≥ 97 ∧ c.toNat ≤ 122 then c.toNat - 32 else c.toNat := by
  rw [toUpper_eq_ite]
  split
  · next hc => exact toNat_ofNat_small (by omega)
  · rfl

lemma pyIsSpace_toNat {c : Char} (h : pyIsSpace c = true) :
    c.toNat = 32 ∨ c.toNat = 9 ∨ c.toNat = 10 ∨ c.toNat = 13 ∨ c.toNat = 11 ∨ c.toNat = 12 := by
  simp only [pyIsSpace, Bool.or_eq_true, beq_iff_eq] at h
  rcases h with ((((h | h) | h) | h) | h) | h <;> subst h <;> simp

lemma pyIsSpace_toUpper (c : Char) : pyIsSpace c.toUpper = pyIsSpace c := by
  by_cases hl : c.toNat ≥ 97 ∧ c.toNat ≤ 122
  · have h1 : pyIsSpace c = false := by
      cases hs : pyIsSpace c
      · rfl
      · exact absurd (pyIsSpace_toNat hs) (by omega)
    have h2 : pyIsSpace c.toUpper = false := by
      cases hs : pyIsSpace c.toUpper
      · rfl
      · have hn := pyIsSpace_toNat hs
        rw [toNat_toUpper, if_pos hl] at hn
        omega
    rw [h1, h2]
  · rw [toUpper_eq_ite, if_neg hl]

lemma toUpper_idem (c : Char) : c.toUpper.toUpper = c.toUpper := by
  by_cases hl : c.toNat ≥ 97 ∧ c.toNat ≤ 122
  · have hn : c.toUpper.toNat = c.toNat - 32 := by rw [toNat_toUpper, if_pos hl]
    rw [toUpper_eq_ite c.toUpper, if_neg (by omega)]
  · have h0 : c.toUpper = c := by rw [toUpper_eq_ite, if_neg hl]
    rw [h0]
    exact h0

lemma pyUpper_idem (s : List Char) : pyUpper (pyUpper s) = pyUpper s := by
  unfold pyUpper
  rw [List.map_map]
  exact List.map_congr_left (fun c _ => toUpper_idem c)

/-- Every token produced by `pySplit` is non-empty and whitespace-free. -/
lemma pySplit_tokens_aux :
    ∀ (n : Nat) (s : List Char), s.length ≤ n →
      ∀ t ∈ pySplit s, t ≠ [] ∧ ∀ c ∈ t, pyIsSpace c = false := by
  intro n
  induction n with
  | zero =>
    intro s hlen t ht
    rw [List.length_eq_zero.mp (Nat.le_zero.mp hlen)] at ht
    simp [pySplit] at ht
  | succ n ih =>
    intro s hlen t ht
    cases s with
    | nil => simp [pySplit] at ht
    | cons c cs =>
      cases hc : pyIsSpace c with
      | true =>
        rw [pySplit_cons_space hc] at ht
        exact ih cs (by simp at hlen; omega) t ht
      | false =>
        rw [pySplit_cons_nonspace cs c hc] at ht
        rcases List.mem_cons.mp ht with rfl | hmem
        · refine ⟨by simp, fun x hx => ?_⟩
          rcases List.mem_cons.mp hx with rfl | hx2
          · exact hc
          · have := List.mem_takeWhile_imp hx2
            simpa using this
        · have hlen2 : (cs.dropWhile (fun x => !pyIsSpace x)).length ≤ n := by
            have := (List.dropWhile_sublist (l := cs) (fun x => !pyIsSpace x)).length_le
            simp at hlen
            omega
          exact ih _ hlen2 t hmem

lemma pySplit_tokens (s : List Char) :
    ∀ t ∈ pySplit s, t ≠ [] ∧ ∀ c ∈ t, pyIsSpace c = false :=
  pySplit_tokens_aux s.length s (Nat.le_refl _)

/-- Splitting the space-joined form of non-empty whitespace-free tokens
recovers the tokens. -/
lemma pySplit_joinSpaces :
    ∀ ts : List (List Char),
      (∀ t ∈ ts, t ≠ [] ∧ ∀ c ∈ t, pyIsSpace c = false) →
      pySplit (joinSpaces ts) = ts := by
  intro ts
  induction ts with
  | nil => intro _; rfl
  | cons t ts2 ih =>
    intro hgood
    obtain ⟨hne, hsp⟩ := hgood t (List.mem_cons_self t ts2)
    cases ts2 with
    | nil =>
      show pySplit t = [t]
      cases t with
      | nil => exact absurd rfl hne
      | cons c cs =>
        rw [pySplit_cons_nonspace cs c (hsp c (List.mem_cons_self c cs))]
        rw [List.takeWhile_eq_self_iff.mpr
            (fun x hx => by simp [hsp x (List.mem_cons_of_mem c hx)])]
        rw [List.dropWhile_eq_nil_iff.mpr
            (fun x hx => by simp [hsp x (List.mem_cons_of_mem c hx)])]
        rfl
    | cons t2 ts3 =>
      show pySplit (t ++ ' ' :: joinSpaces (t2 :: ts3)) = t :: t2 :: ts3
      cases t with
      | nil => exact absurd rfl hne
      | cons c cs =>
        have hcs : ∀ x ∈ cs, (fun x => !pyIsSpace x) x = true :=
          fun x hx => by simp [hsp x (List.mem_cons_of_mem c hx)]
        rw [List.cons_append, pySplit_cons_nonspace _ c (hsp c (List.mem_cons_self c cs))]
        rw [List.takeWhile_append_of_pos hcs, List.dropWhile_append_of_pos hcs]
        rw [List.takeWhile_cons_of_neg (by decide), List.dropWhile_cons_of_neg (by decide)]
        rw [pySplit_cons_space (by decide)]
        rw [ih (fun u hu => hgood u (List.mem_cons_of_mem _ hu))]
        simp

/-- The space-joined form of non-empty tokens is non-empty. -/
lemma joinSpaces_ne_nil :
    ∀ ts : List (List Char), ts ≠ [] → (∀ t ∈ ts, t ≠ []) → joinSpaces ts ≠ [] := by
  intro ts hne hts
  cases ts with
  | nil => exact absurd rfl hne
  | cons t ts2 =>
    cases ts2 with
    | nil => exact hts t (List.mem_cons_self t [])
    | cons t2 ts3 =>
      show t ++ ' ' :: joinSpaces (t2 :: ts3) ≠ []
      simp

/-- The first character of the joined tokens is not whitespace. -/
lemma joinSpaces_head :
    ∀ ts : List (List Char),
      (∀ t ∈ ts, t ≠ [] ∧ ∀ c ∈ t, pyIsSpace c = false) →
      ∀ c, (joinSpaces ts).head? = some c → pyIsSpace c = false := by
  intro ts hgood c hc
  cases ts with
  | nil => simp [joinSpaces] at hc
  | cons t ts2 =>
    obtain ⟨hne, hsp⟩ := hgood t (List.mem_cons_self t ts2)
    cases t with
    | nil => exact absurd rfl hne
    | cons a as =>
      cases ts2 with
      | nil =>
        have hca : c = a := by
          have hh : (a :: as).head? = some c := hc
          simpa using hh.symm
        rw [hca]
        exact hsp a (List.mem_cons_self a as)
      | cons t2 ts3 =>
        have hh : ((a :: as) ++ ' ' :: joinSpaces (t2 :: ts3)).head? = some c := hc
        rw [List.cons_append] at hh
        have hca : c = a := by simpa using hh.symm
        rw [hca]
        exact hsp a (List.mem_cons_self a as)

/-- The last character of the joined tokens is not whitespace. -/
lemma joinSpaces_getLast :
    ∀ ts : List (List Char),
      (∀ t ∈ ts, t ≠ [] ∧ ∀ c ∈ t, pyIsSpace c = false) →
      ∀ c, (joinSpaces ts).getLast? = some c → pyIsSpace c = false := by
  intro ts
  induction ts with
  | nil => intro _ c hc; simp [joinSpaces] at hc
  | cons t ts2 ih =>
    intro hgood c hc
    obtain ⟨hne, hsp⟩ := hgood t (List.mem_cons_self t ts2)
    cases ts2 with
    | nil =>
      exact hsp c (List.mem_of_getLast?_eq_some hc)
    | cons t2 ts3 =>
      have hrest : joinSpaces (t2 :: ts3) ≠ [] :=
        joinSpaces_ne_nil (t2 :: ts3) (by simp)
          (fun u hu => (hgood u (List.mem_cons_of_mem t hu)).1)
      have hj : (joinSpaces (t :: t2 :: ts3)).getLast?
          = (joinSpaces (t2 :: ts3)).getLast? := by
        show (t ++ ' ' :: joinSpaces (t2 :: ts3)).getLast? = _
        rw [List.getLast?_append_of_ne_nil _ (by simp)]
        show ([' '] ++ joinSpaces (t2 :: ts3)).getLast? = _
        rw [List.getLast?_append_of_ne_nil _ hrest]
      rw [hj] at hc
      exact ih (fun u hu => hgood u (List.mem_cons_of_mem _ hu)) c hc

/-- A string with no leading and no trailing whitespace is untouched by
`pyStrip`. -/
lemma pyStrip_eq_self {l : List Char}
    (hh : ∀ c, l.head? = some c → pyIsSpace c = false)
    (hl : ∀ c, l.getLast? = some c → pyIsSpace c = false) :
    pyStrip l = l := by
  unfold pyStrip
  have h1 : l.dropWhile pyIsSpace = l := by
    cases l with
    | nil => rfl
    | cons c cs => exact List.dropWhile_cons_of_neg (by simp [hh c rfl])
  rw [h1]
  have h2 : l.reverse.dropWhile pyIsSpace = l.reverse := by
    cases hr : l.reverse with
    | nil => rfl
    | cons c cs =>
      have hc : l.getLast? = some c := by
        rw [← List.head?_reverse, hr]
        rfl
      rw [← hr]
      cases hrv : l.reverse with
      | nil => rfl
      | cons c2 cs2 =>
        have hc2 : c2 = c := by rw [hrv] at hr; exact (List.cons.injEq _ _ _ _ ▸ hr).1
        exact List.dropWhile_cons_of_neg (by simp [hc2, hl c hc])
  rw [h2, List.reverse_reverse]

/-- `pyStrip` commutes with uppercasing. -/
lemma pyStrip_pyUpper (s : List Char) : pyStrip (pyUpper s) = pyUpper (pyStrip s) := by
  have hfun : (pyIsSpace ∘ Char.toUpper) = pyIsSpace := funext pyIsSpace_toUpper
  unfold pyStrip pyUpper
  rw [List.dropWhile_map, hfun, ← List.map_reverse, List.dropWhile_map, hfun,
    ← List.map_reverse]

/-- `pySplit` commutes with uppercasing. -/
lemma pySplit_pyUpper_aux :
    ∀ (n : Nat) (s : List Char), s.length ≤ n →
      pySplit (pyUpper s) = (pySplit s).map pyUpper := by
  intro n
  induction n with
  | zero =>
    intro s hlen
    rw [List.length_eq_zero.mp (Nat.le_zero.mp hlen)]
    rfl
  | succ n ih =>
    intro s hlen
    cases s with
    | nil => rfl
    | cons c cs =>
      have hup : pyUpper (c :: cs) = c.toUpper :: pyUpper cs := rfl
      cases hc : pyIsSpace c with
      | true =>
        have hcu : pyIsSpace c.toUpper = true := by rw [pyIsSpace_toUpper, hc]
        rw [hup, pySplit_cons_space hcu, pySplit_cons_space hc]
        exact ih cs (by simp at hlen; omega)
      | false =>
        have hcu : pyIsSpace c.toUpper = false := by rw [pyIsSpace_toUpper, hc]
        have hpw : ((fun x => !pyIsSpace x) ∘ Char.toUpper) = (fun x => !pyIsSpace x) := by
          funext x
          simp [pyIsSpace_toUpper]
        rw [hup, pySplit_cons_nonspace _ _ hcu, pySplit_cons_nonspace cs c hc]
        show (c.toUpper :: (cs.map Char.toUpper).takeWhile _) :: pySplit
              ((cs.map Char.toUpper).dropWhile _) = _
        rw [List.takeWhile_map, List.dropWhile_map, hpw]
        have hlen2 : (cs.dropWhile (fun x => !pyIsSpace x)).length ≤ n := by
          have := (List.dropWhile_sublist (l := cs) (fun x => !pyIsSpace x)).length_le
          simp at hlen
          omega
        show (c.toUpper :: pyUpper (cs.takeWhile (fun x => !pyIsSpace x)))
            :: pySplit (pyUpper (cs.dropWhile (fun x => !pyIsSpace x))) = _
        rw [ih _ hlen2]
        rfl

lemma pySplit_pyUpper (s : List Char) :
    pySplit (pyUpper s) = (pySplit s).map pyUpper :=
  pySplit_pyUpper_aux s.length s (Nat.le_refl _)

/-- `joinSpaces` commutes with uppercasing (the separator is a fixed point
of `Char.toUpper`). -/
lemma joinSpaces_pyUpper :
    ∀ ts : List (List Char), joinSpaces (ts.map pyUpper) = pyUpper (joinSpaces ts) := by
  intro ts
  induction ts with
  | nil => rfl
  | cons t ts2 ih =>
    cases ts2 with
    | nil => rfl
    | cons t2 ts3 =>
      show pyUpper t ++ ' ' :: joinSpaces ((t2 :: ts3).map pyUpper)
          = pyUpper (t ++ ' ' :: joinSpaces (t2 :: ts3))
      rw [ih]
      show _ = (t ++ ' ' :: joinSpaces (t2 :: ts3)).map Char.toUpper
      rw [List.map_append]
      rfl

/-- C7: the text normalizer `_clean_plate_text` is idempotent — cleaning
an already-cleaned (trimmed, single-spaced, uppercased) string returns it
unchanged. -/
theorem clean_plate_text_idempotent :
    ∀ s : List Char, clean_plate_text (clean_plate_text s) = clean_plate_text s := by
  intro s
  show clean_plate_text (pyUpper (joinSpaces (pySplit (pyStrip s)))) = _
  have hgood := pySplit_tokens (pyStrip s)
  have hstrip : pyStrip (joinSpaces (pySplit (pyStrip s))) = joinSpaces (pySplit (pyStrip s)) :=
    pyStrip_eq_self (joinSpaces_head _ hgood) (joinSpaces_getLast _ hgood)
  calc clean_plate_text (pyUpper (joinSpaces (pySplit (pyStrip s))))
      = pyUpper (joinSpaces (pySplit (pyStrip (pyUpper (joinSpaces (pySplit (pyStrip s))))))) :=
        rfl
    _ = pyUpper (joinSpaces (pySplit (pyUpper (pyStrip (joinSpaces (pySplit (pyStrip s))))))) := by
        rw [pyStrip_pyUpper]
    _ = pyUpper (joinSpaces (pySplit (pyUpper (joinSpaces (pySplit (pyStrip s)))))) := by
        rw [hstrip]
    _ = pyUpper (joinSpaces ((pySplit (joinSpaces (pySplit (pyStrip s)))).map pyUpper)) := by
        rw [pySplit_pyUpper]
    _ = pyUpper (joinSpaces ((pySplit (pyStrip s)).map pyUpper)) := by
        rw [pySplit_joinSpaces _ hgood]
    _ = pyUpper (pyUpper (joinSpaces (pySplit (pyStrip s)))) := by
        rw [joinSpaces_pyUpper]
    _ = pyUpper (joinSpaces (pySplit (pyStrip s))) := pyUpper_idem _
    _ = clean_plate_text s := rfl

end PlateSystem
